import Mathlib

/-!
# Verification of the `lockin2` demodulation core

A shallow embedding of the demodulation engine of `src/lockin2.cpp`
(class `Lockin2`): reference-edge detection and per-period sine/cosine
synthesis (`parseChopperSignal`), demodulation, the sliding integration
window with its running mean, the vumeter snapshot rebuild, and the
session-controller configuration setters.

Modelling conventions:
* `qreal` (double) is modelled as `ℝ`; `quint32` magnitudes as `ℕ`.
  IEEE rounding and overflow are not modelled; in particular `x / 0 = 0`
  in `ℝ` where C++ doubles produce `inf`/`NaN` (this is made explicit at
  the one place it matters, the zero-valid-sample mean).
* The 64-bit accumulation of the chopper average is modelled as exact
  natural arithmetic (it cannot wrap for any realistic burst size).
* Qt containers (`QList`) are modelled as `List`; the input byte stream
  is modelled as the list of complete `(left, right)` sample pairs the
  loop at lines 164-176 extracts from it.
* The vumeter mutex `tryLock` outcome is an explicit boolean parameter
  of the processing cycle; `_audioInput != 0` is an explicit flag.
-/

namespace Lockin2

/-- The constant `M_2_PI` from `<math.h>`, used in the angle formula at
`lockin2.cpp:278`.  Its mathematical value is `2 / π` (about `0.6366`),
not `2π`. -/
noncomputable def M_2_PI : ℝ := 2 / Real.pi

/-- State of the scanning loop of `Lockin2::parseChopperSignal`
(`lockin2.cpp:258-287`): the `ignore` flag (still inside the first,
partial run), the previous sample's above-average classification
`wasBigger`, the running `periodSize` counter, and the output list
built so far. -/
structure ChopState where
  ignore : Bool
  wasBigger : Bool
  periodSize : ℕ
  out : List (ℝ × ℝ)

/-- One iteration of the `for` loop of `parseChopperSignal`
(`lockin2.cpp:262-287`) on the next chopper sample `s`.  The parameter
`mk i L` stands for the pair the source synthesizes at index `i` of a
closed run of length `L` (lines 277-280); the sentinel pair `(2, 2)`
marks ignored samples (lines 272-273). -/
noncomputable def chopStep (mk : ℕ → ℕ → ℝ × ℝ) (avg : ℕ) (st : ChopState) (s : ℕ) :
    ChopState :=
  if avg < s ∧ st.wasBigger = false then
    if st.ignore then
      ⟨false, decide (avg < s), 0, st.out ++ List.replicate (st.periodSize + 1) (2, 2)⟩
    else
      ⟨st.ignore, decide (avg < s), 0,
        st.out ++ (List.range (st.periodSize + 1)).map (fun i => mk i (st.periodSize + 1))⟩
  else
    ⟨st.ignore, decide (avg < s), st.periodSize + 1, st.out⟩

/-- The whole scanning loop of `parseChopperSignal`, a fold of
`chopStep` over the burst. -/
noncomputable def chopRun (mk : ℕ → ℕ → ℝ × ℝ) (avg : ℕ) (st : ChopState)
    (signal : List ℕ) : ChopState :=
  signal.foldl (chopStep mk avg) st

/-- The pair synthesized at index `i` of a closed run of length `L`
(`lockin2.cpp:278-279`): `angle = M_2_PI * i / L + phase`, mapped to
`(sin angle, cos angle)`. -/
noncomputable def chopMk (phase : ℝ) (i L : ℕ) : ℝ × ℝ :=
  (Real.sin (M_2_PI * i / L + phase), Real.cos (M_2_PI * i / L + phase))

/-- `Lockin2::parseChopperSignal` (`lockin2.cpp:251-293`): scan the
burst with `chopRun` starting from `ignore = true`,
`wasBiggerThanAvg = (signal.first() > avg)` and an empty output, then
pad the output with the sentinel `(2, 2)` up to the burst length
(lines 289-290).  The source dereferences `signal.first()`, so it
requires a non-empty burst; `headI` returns `0` on `[]`. -/
noncomputable def parseChopperSignal (signal : List ℕ) (avg : ℕ) (phase : ℝ) :
    List (ℝ × ℝ) :=
  let st := chopRun (chopMk phase) avg ⟨true, decide (avg < signal.headI), 0, []⟩ signal
  st.out ++ List.replicate (signal.length - st.out.length) (2, 2)

/-- The demodulation loop (`lockin2.cpp:188-198`): each measurement
sample is multiplied by its synthesized `(sin, cos)` pair; samples whose
chopper entry is the sentinel (first component `2.0`) are stored as the
impossible pair `(0.5, 0.5)` (line 194). -/
noncomputable def demodulate : List ℕ → List (ℝ × ℝ) → List (ℝ × ℝ)
  | l :: ls, p :: ps =>
      (if p.1 ≠ 2 then (p.1 * (l : ℝ), p.2 * (l : ℝ)) else ((1 : ℝ) / 2, (1 : ℝ) / 2)) ::
        demodulate ls ps
  | _, _ => []

/-- The vumeter rebuild loop (`lockin2.cpp:203-210`), walking the burst
backwards (here: over the reversed `zip` of measurements and chopper
pairs), prepending `(measurement, sin-component)` for valid entries and
stopping once `cap` (`_sampleVumeter`) entries were collected.  The
break test happens before the validity test, exactly as in the source. -/
noncomputable def vumeterLoop (cap : ℕ) : List (ℕ × (ℝ × ℝ)) → List (ℝ × ℝ) → List (ℝ × ℝ)
  | [], acc => acc
  | (l, p) :: rest, acc =>
      if cap ≤ acc.length then acc
      else if p.1 ≠ 2 then vumeterLoop cap rest (((l : ℝ), p.1) :: acc)
      else vumeterLoop cap rest acc

/-- The whole vumeter rebuild (`lockin2.cpp:201-211`): cleared, then
refilled from the most recent samples backwards. -/
noncomputable def buildVumeter (cap : ℕ) (leftSignal : List ℕ)
    (chopperSinCos : List (ℝ × ℝ)) : List (ℝ × ℝ) :=
  vumeterLoop cap ((leftSignal.zip chopperSinCos).reverse) []

/-- The trimming loop `while (_data.size() > _sampleIntegration)
_data.removeFirst();` (`lockin2.cpp:226-227`). -/
noncomputable def trimFront (cap : ℕ) : List (ℝ × ℝ) → List (ℝ × ℝ)
  | [] => []
  | p :: rest => if cap < (p :: rest).length then trimFront cap rest else p :: rest

/-- The averaging loop (`lockin2.cpp:229-240`): accumulate
`(dataCount, x, y)` over the window, skipping every entry with first
component `0.5` or second component `0.5` (the `ignoreValue` test at
line 235). -/
noncomputable def sumValid (data : List (ℝ × ℝ)) : ℝ × ℝ × ℝ :=
  data.foldl
    (fun acc p =>
      if p.1 ≠ (1 : ℝ) / 2 ∧ p.2 ≠ (1 : ℝ) / 2 then
        (acc.1 + 1, acc.2.1 + p.1, acc.2.2 + p.2)
      else acc)
    (0, 0, 0)

/-- The member state of the `Lockin2` class: `audioActive` models
`_audioInput != 0`; the four configuration fields, the derived sample
counts (`int` members, non-negative in every reachable configuration),
the time cursor, the integration window `_data`, the vumeter snapshot
and the last computed output pair. -/
structure Lockin where
  audioActive : Bool
  outputPeriod : ℝ
  integrationTime : ℝ
  vumeterTime : ℝ
  phase : ℝ
  timeValue : ℝ
  sampleIntegration : ℕ
  sampleVumeter : ℕ
  data : List (ℝ × ℝ)
  vumeterData : List (ℝ × ℝ)
  xValue : ℝ
  yValue : ℝ

/-- `Lockin2::setOutputPeriod` (`lockin2.cpp:85-91`): stores only while
the lockin is not running, otherwise warns and leaves the value. -/
noncomputable def setOutputPeriod (s : Lockin) (v : ℝ) : Lockin :=
  if s.audioActive = false then { s with outputPeriod := v } else s

/-- `Lockin2::setIntegrationTime` (`lockin2.cpp:93-99`). -/
noncomputable def setIntegrationTime (s : Lockin) (v : ℝ) : Lockin :=
  if s.audioActive = false then { s with integrationTime := v } else s

/-- `Lockin2::setVumeterTime` (`lockin2.cpp:101-107`). -/
noncomputable def setVumeterTime (s : Lockin) (v : ℝ) : Lockin :=
  if s.audioActive = false then { s with vumeterTime := v } else s

/-- `Lockin2::setPhase` (`lockin2.cpp:109-112`): stores the phase
unconditionally — unlike the other three setters it has no
`_audioInput == 0` guard. -/
noncomputable def setPhase (s : Lockin) (v : ℝ) : Lockin :=
  { s with phase := v }

/-- The constructor defaults (`lockin2.cpp:5-19`): inactive, output
period `0.5`, vumeter time `0.02`, integration time `3.0`, phase `0`. -/
noncomputable def lockinInit : Lockin :=
  { audioActive := false, outputPeriod := 1 / 2, integrationTime := 3,
    vumeterTime := 1 / 50, phase := 0, timeValue := 0,
    sampleIntegration := 0, sampleVumeter := 0, data := [],
    vumeterData := [], xValue := 0, yValue := 0 }

/-- `Lockin2::start` (`lockin2.cpp:42-83`): fails while already running
or when the format is rejected; otherwise becomes active, sets
`_timeValue = -(_integrationTime / 2)` and derives the sample counts
`_sampleIntegration = sampleRate * _integrationTime` and
`_sampleVumeter = sampleRate * _vumeterTime` (`int` truncation of a
positive product is `⌊·⌋`).  `formatOk` bundles the format validity,
`isFormatSupported` and the device-support checks. -/
noncomputable def start (s : Lockin) (sampleRate : ℕ) (formatOk : Bool) :
    Lockin × Bool :=
  if s.audioActive then (s, false)
  else if formatOk = false then (s, false)
  else
    ({ s with audioActive := true,
              timeValue := -(s.integrationTime / 2),
              sampleIntegration := (⌊(sampleRate : ℝ) * s.integrationTime⌋).toNat,
              sampleVumeter := (⌊(sampleRate : ℝ) * s.vumeterTime⌋).toNat }, true)

/-- `Lockin2::interpretInput` (`lockin2.cpp:142-249`), one processing
cycle on one burst of `(left, right)` sample pairs.  Steps, in source
order: bump the time cursor (line 144); read the burst and accumulate
the chopper average (lines 158-176); bail out on an empty burst
(lines 178-181); `avgRight /= newSamplesCount` (line 183); synthesize
the chopper `(sin, cos)` list (line 185); demodulate into `_data`
(lines 188-198); rebuild the vumeter when the mutex is free
(lines 201-214); bail out while the window is under capacity
(lines 220-223); trim the window from the front (lines 226-227);
average the valid entries and emit (lines 229-248).  Returns the new
state and the emitted `newValues(time, x, y)` event, if any. -/
noncomputable def interpretInput (s : Lockin) (burst : List (ℕ × ℕ))
    (vumeterFree : Bool) : Lockin × Option (ℝ × ℝ × ℝ) :=
  let s1 : Lockin := { s with timeValue := s.timeValue + s.outputPeriod }
  let leftSignal : List ℕ := burst.map Prod.fst
  let chopperSignal : List ℕ := burst.map Prod.snd
  if burst.length = 0 then (s1, none)
  else
    let avgRight : ℕ := chopperSignal.sum / burst.length
    let chopperSinCos := parseChopperSignal chopperSignal avgRight s1.phase
    let newData := demodulate leftSignal chopperSinCos
    let s2 : Lockin := { s1 with data := s1.data ++ newData }
    let s3 : Lockin :=
      if vumeterFree then
        { s2 with vumeterData := buildVumeter s2.sampleVumeter leftSignal chopperSinCos }
      else s2
    if s3.data.length < s3.sampleIntegration then (s3, none)
    else
      let trimmed := trimFront s3.sampleIntegration s3.data
      let acc := sumValid trimmed
      let x := acc.2.1 / acc.1
      let y := acc.2.2 / acc.1
      ({ s3 with data := trimmed, xValue := x, yValue := y },
        some (s3.timeValue, x, y))

/-- A sequence of processing cycles: fold `interpretInput` over a list
of `(burst, vumeter-mutex-free)` inputs, keeping only the state. -/
noncomputable def runCycles (s : Lockin) : List (List (ℕ × ℕ) × Bool) → Lockin
  | [] => s
  | inp :: rest => runCycles (interpretInput s inp.1 inp.2).1 rest

/-- Position `i` of the burst is a rising edge of the chopper signal in
the sense of the scan of `parseChopperSignal`: its sample is above the
average while the previous one is not.  Position `0` is never an edge
because `wasBiggerThanAvg` is initialised with sample `0` itself
(`lockin2.cpp:259`). -/
def risingEdgeAt (signal : List ℕ) (avg : ℕ) (i : ℕ) : Prop :=
  0 < i ∧ i < signal.length ∧ avg < signal.getD i 0 ∧ ¬ avg < signal.getD (i - 1) 0

/-- Modelled from the spec: the mean the Integration Window section of
the spec prescribes, namely the componentwise mean over the *valid*
demodulated samples of a burst — those whose chopper entry is not the
sentinel — with the sum divided by the count of valid entries.  (The
repository has no such function; the source infers validity from the
stored `0.5` sentinel instead, which is what the claims compare this
definition against.) -/
noncomputable def specValidMean (leftSignal : List ℕ) (chopperSinCos : List (ℝ × ℝ)) :
    ℝ × ℝ :=
  let vs := (leftSignal.zip chopperSinCos).filterMap
    (fun lp => if lp.2.1 ≠ 2 then some (lp.2.1 * (lp.1 : ℝ), lp.2.2 * (lp.1 : ℝ)) else none)
  (((vs.map Prod.fst).sum) / vs.length, ((vs.map Prod.snd).sum) / vs.length)

/-- The scan never triggers the rising-edge branch along `l` when, for
each sample, it is not the case that the sample is above average while
the previous classification was `false`.  The boolean argument is the
incoming `wasBiggerThanAvg`. -/
def noTrigger (avg : ℕ) : Bool → List ℕ → Prop
  | _, [] => True
  | wb, s :: rest => ¬(avg < s ∧ wb = false) ∧ noTrigger avg (decide (avg < s)) rest

/-- The `wasBiggerThanAvg` value the scan holds when it reaches absolute
position `i` of the burst: position `0` compares the first sample with
itself (`lockin2.cpp:259`), later positions the previous sample. -/
def wbAt (signal : List ℕ) (avg : ℕ) : ℕ → Bool
  | 0 => decide (avg < signal.headI)
  | i + 1 => decide (avg < signal.getD i 0)

namespace ChopState

theorem chopRun_nil (mk : ℕ → ℕ → ℝ × ℝ) (avg : ℕ) (st : ChopState) :
    chopRun mk avg st [] = st := rfl

theorem chopRun_cons (mk : ℕ → ℕ → ℝ × ℝ) (avg : ℕ) (st : ChopState) (s : ℕ)
    (rest : List ℕ) :
    chopRun mk avg st (s :: rest) = chopRun mk avg (chopStep mk avg st s) rest := rfl

end ChopState

/-- `chopStep` on a rising edge while still in the first, partial run:
flush `periodSize + 1` sentinels. -/
theorem chopStep_flush_ignore (mk : ℕ → ℕ → ℝ × ℝ) (avg : ℕ) (wb : Bool) (ps : ℕ)
    (out : List (ℝ × ℝ)) (s : ℕ) (h : avg < s ∧ wb = false) :
    chopStep mk avg ⟨true, wb, ps, out⟩ s =
      ⟨false, decide (avg < s), 0, out ++ List.replicate (ps + 1) (2, 2)⟩ := by
  unfold chopStep
  rw [if_pos h, if_pos rfl]

/-- `chopStep` on a rising edge closing a full run: flush the
synthesized pairs of a run of length `periodSize + 1`. -/
theorem chopStep_flush_run (mk : ℕ → ℕ → ℝ × ℝ) (avg : ℕ) (ig wb : Bool) (ps : ℕ)
    (out : List (ℝ × ℝ)) (s : ℕ) (h : avg < s ∧ wb = false) (hig : ig = false) :
    chopStep mk avg ⟨ig, wb, ps, out⟩ s =
      ⟨ig, decide (avg < s), 0, out ++ (List.range (ps + 1)).map (fun i => mk i (ps + 1))⟩ := by
  unfold chopStep
  rw [if_pos h, if_neg]
  simp [hig]

/-- `chopStep` away from a rising edge: only count the sample. -/
theorem chopStep_skip (mk : ℕ → ℕ → ℝ × ℝ) (avg : ℕ) (ig wb : Bool) (ps : ℕ)
    (out : List (ℝ × ℝ)) (s : ℕ) (h : ¬(avg < s ∧ wb = false)) :
    chopStep mk avg ⟨ig, wb, ps, out⟩ s = ⟨ig, decide (avg < s), ps + 1, out⟩ := by
  unfold chopStep
  rw [if_neg h]

/-- The output list is a pure accumulator of the scan: running from an
arbitrary `out` prefixes the run from `[]` with it, and the three flag
components do not depend on `out` at all. -/
theorem chopRun_shift (mk : ℕ → ℕ → ℝ × ℝ) (avg : ℕ) :
    ∀ (l : List ℕ) (ig wb : Bool) (ps : ℕ) (out : List (ℝ × ℝ)),
    chopRun mk avg ⟨ig, wb, ps, out⟩ l =
      ⟨(chopRun mk avg ⟨ig, wb, ps, []⟩ l).ignore,
       (chopRun mk avg ⟨ig, wb, ps, []⟩ l).wasBigger,
       (chopRun mk avg ⟨ig, wb, ps, []⟩ l).periodSize,
       out ++ (chopRun mk avg ⟨ig, wb, ps, []⟩ l).out⟩ := by
  intro l
  induction l with
  | nil => intro ig wb ps out; simp [ChopState.chopRun_nil]
  | cons s rest ih =>
    intro ig wb ps out
    rw [ChopState.chopRun_cons, ChopState.chopRun_cons]
    by_cases hc : avg < s ∧ wb = false
    · by_cases hig : ig = true
      · subst hig
        rw [chopStep_flush_ignore mk avg wb ps out s hc,
            chopStep_flush_ignore mk avg wb ps [] s hc]
        rw [ih false (decide (avg < s)) 0 (out ++ List.replicate (ps + 1) (2, 2)),
            ih false (decide (avg < s)) 0 ([] ++ List.replicate (ps + 1) (2, 2))]
        simp
      · have hig' : ig = false := by revert hig; cases ig <;> simp
        rw [chopStep_flush_run mk avg ig wb ps out s hc hig',
            chopStep_flush_run mk avg ig wb ps [] s hc hig']
        rw [ih ig (decide (avg < s)) 0
              (out ++ (List.range (ps + 1)).map (fun i => mk i (ps + 1))),
            ih ig (decide (avg < s)) 0
              ([] ++ (List.range (ps + 1)).map (fun i => mk i (ps + 1)))]
        simp
    · rw [chopStep_skip mk avg ig wb ps out s hc, chopStep_skip mk avg ig wb ps [] s hc]
      rw [ih ig (decide (avg < s)) (ps + 1) out, ih ig (decide (avg < s)) (ps + 1) []]
      try simp

/-- Length invariant of the scan: output length plus pending
`periodSize` equals the initial total plus the number of consumed
samples. -/
theorem chopRun_length (mk : ℕ → ℕ → ℝ × ℝ) (avg : ℕ) :
    ∀ (l : List ℕ) (st : ChopState),
    (chopRun mk avg st l).out.length + (chopRun mk avg st l).periodSize =
      st.out.length + st.periodSize + l.length := by
  intro l
  induction l with
  | nil => intro st; simp [ChopState.chopRun_nil]
  | cons s rest ih =>
    intro st
    obtain ⟨ig, wb, ps, out⟩ := st
    rw [ChopState.chopRun_cons]
    by_cases hc : avg < s ∧ wb = false
    · by_cases hig : ig = true
      · subst hig
        rw [chopStep_flush_ignore mk avg wb ps out s hc, ih]
        simp only [List.length_append, List.length_replicate, List.length_cons]
        omega
      · have hig' : ig = false := by revert hig; cases ig <;> simp
        rw [chopStep_flush_run mk avg ig wb ps out s hc hig', ih]
        simp only [List.length_append, List.length_map, List.length_range, List.length_cons]
        omega
    · rw [chopStep_skip mk avg ig wb ps out s hc, ih]
      simp only [List.length_cons]
      omega

/-- After any step, `wasBigger` is the classification of the consumed
sample. -/
theorem chopStep_wasBigger (mk : ℕ → ℕ → ℝ × ℝ) (avg : ℕ) (st : ChopState) (s : ℕ) :
    (chopStep mk avg st s).wasBigger = decide (avg < s) := by
  obtain ⟨ig, wb, ps, out⟩ := st
  by_cases hc : avg < s ∧ wb = false
  · by_cases hig : ig = true
    · subst hig; rw [chopStep_flush_ignore mk avg wb ps out s hc]
    · have hig' : ig = false := by revert hig; cases ig <;> simp
      rw [chopStep_flush_run mk avg ig wb ps out s hc hig']
  · rw [chopStep_skip mk avg ig wb ps out s hc]

/-- After a non-empty run, `wasBigger` is the classification of the last
consumed sample. -/
theorem chopRun_wasBigger (mk : ℕ → ℕ → ℝ × ℝ) (avg : ℕ) :
    ∀ (l : List ℕ) (st : ChopState), l ≠ [] →
    (chopRun mk avg st l).wasBigger = decide (avg < l.getLastD 0) := by
  intro l
  induction l with
  | nil => intro st h; exact absurd rfl h
  | cons s rest ih =>
    intro st _
    rw [ChopState.chopRun_cons]
    rcases eq_or_ne rest [] with hr | hr
    · subst hr
      rw [ChopState.chopRun_nil, chopStep_wasBigger]
      rfl
    · have hlast : (s :: rest).getLastD 0 = rest.getLastD 0 := by
        rw [List.getLastD_cons, List.getLastD_eq_getLast?, List.getLastD_eq_getLast?]
        cases h : rest.getLast? with
        | none => exact absurd (List.getLast?_eq_none_iff.mp h) hr
        | some v => rfl
      rw [hlast]
      exact ih (chopStep mk avg st s) hr

/-- A run along a stretch with no rising-edge trigger leaves `ignore`
and the output untouched and only accumulates `periodSize`. -/
theorem chopRun_noTrigger (mk : ℕ → ℕ → ℝ × ℝ) (avg : ℕ) :
    ∀ (l : List ℕ) (st : ChopState), noTrigger avg st.wasBigger l →
    (chopRun mk avg st l) =
      ⟨st.ignore, (chopRun mk avg st l).wasBigger, st.periodSize + l.length, st.out⟩ := by
  intro l
  induction l with
  | nil => intro st _; simp [ChopState.chopRun_nil]
  | cons s rest ih =>
    intro st hnt
    obtain ⟨h1, h2⟩ := hnt
    obtain ⟨ig, wb, ps, out⟩ := st
    rw [ChopState.chopRun_cons]
    rw [chopStep_skip mk avg ig wb ps out s h1]
    have := ih ⟨ig, decide (avg < s), ps + 1, out⟩ h2
    rw [this]
    simp only [List.length_cons]
    congr 1
    omega

theorem getD_append_left {α : Type} (l1 l2 : List α) (i : ℕ) (d : α)
    (h : i < l1.length) : (l1 ++ l2).getD i d = l1.getD i d := by
  rw [List.getD_eq_getElem?_getD, List.getD_eq_getElem?_getD, List.getElem?_append]
  simp [h]

theorem getD_append_right {α : Type} (l1 l2 : List α) (i : ℕ) (d : α)
    (h : l1.length ≤ i) : (l1 ++ l2).getD i d = l2.getD (i - l1.length) d := by
  rw [List.getD_eq_getElem?_getD, List.getD_eq_getElem?_getD, List.getElem?_append]
  simp [Nat.not_lt.mpr h]

theorem getD_replicate_self {α : Type} (n i : ℕ) (x d : α) (h : i < n) :
    (List.replicate n x).getD i d = x := by
  rw [List.getD_eq_getElem?_getD, List.getElem?_replicate]
  simp [h]

theorem getD_take_lt {α : Type} (l : List α) (n i : ℕ) (d : α) (h : i < n) :
    (l.take n).getD i d = l.getD i d := by
  rw [List.getD_eq_getElem?_getD, List.getD_eq_getElem?_getD, List.getElem?_take]
  simp [h]

theorem headI_eq_getD (l : List ℕ) (h : l ≠ []) : l.headI = l.getD 0 0 := by
  cases l with
  | nil => exact absurd rfl h
  | cons a rest => rfl

/-- Splitting a scan at position `i`. -/
theorem chopRun_split (mk : ℕ → ℕ → ℝ × ℝ) (avg : ℕ) (st : ChopState)
    (signal : List ℕ) (i : ℕ) :
    chopRun mk avg st signal =
      chopRun mk avg (chopRun mk avg st (signal.take i)) (signal.drop i) := by
  simp only [chopRun]
  rw [← List.foldl_append, List.take_append_drop]

/-- Bridge from the index-wise rising-edge description to the scan's
trigger condition: a stretch of the burst containing no rising edge
never triggers, starting from the `wasBigger` value the scan holds at
its left end. -/
theorem noTrigger_of_noEdge (signal : List ℕ) (avg : ℕ) :
    ∀ (len a : ℕ), a + len ≤ signal.length →
    (∀ j, a ≤ j → j < a + len → ¬ risingEdgeAt signal avg j) →
    noTrigger avg (wbAt signal avg a) ((signal.drop a).take len) := by
  intro len
  induction len with
  | zero => intro a _ _; simp [noTrigger]
  | succ len ih =>
    intro a hlen hedge
    have ha : a < signal.length := by omega
    have hdrop : signal.drop a = signal[a] :: signal.drop (a + 1) :=
      List.drop_eq_getElem_cons ha
    rw [hdrop]
    have hgetD : signal.getD a 0 = signal[a] := List.getD_eq_getElem signal 0 ha
    constructor
    · rintro ⟨h1, h2⟩
      cases a with
      | zero =>
        have hne : signal ≠ [] := by
          intro hnil; rw [hnil] at ha; simp at ha
        rw [wbAt, headI_eq_getD signal hne, hgetD] at h2
        simp at h2
        exact absurd h1 (Nat.not_lt.mpr h2)
      | succ i =>
        rw [wbAt] at h2
        simp at h2
        refine hedge (i + 1) (le_refl _) (by omega) ?_
        refine ⟨Nat.succ_pos i, ha, ?_, ?_⟩
        · rw [hgetD]; exact h1
        · simpa using h2
    · have : decide (avg < signal[a]) = wbAt signal avg (a + 1) := by
        rw [wbAt, hgetD]
      rw [this]
      exact ih (a + 1) (by omega) (fun j hj hj' => hedge j (by omega) (by omega))

/-- `wasBigger` of the scan state at absolute position `i` of the
burst. -/
theorem chopRun_take_wasBigger (mk : ℕ → ℕ → ℝ × ℝ) (avg : ℕ) (signal : List ℕ)
    (i : ℕ) (hi : i ≤ signal.length) :
    (chopRun mk avg ⟨true, decide (avg < signal.headI), 0, []⟩ (signal.take i)).wasBigger =
      wbAt signal avg i := by
  cases i with
  | zero => rw [List.take_zero, ChopState.chopRun_nil, wbAt]
  | succ i =>
    have hltake : (signal.take (i + 1)).length = i + 1 := by
      rw [List.length_take]
      omega
    have htake : signal.take (i + 1) ≠ [] := by
      intro h
      rw [h] at hltake
      simp at hltake
    rw [chopRun_wasBigger mk avg (signal.take (i + 1)) _ htake]
    have hlast : (signal.take (i + 1)).getLastD 0 = signal.getD i 0 := by
      rw [List.getLastD_eq_getLast?, List.getLast?_eq_getElem?]
      rw [hltake]
      simp only [Nat.add_sub_cancel]
      rw [List.getElem?_take]
      rw [List.getD_eq_getElem?_getD]
      simp
    rw [hlast, wbAt]

/-- While the scan is still in its first, partial run with an empty
output, every output position below the pending `periodSize` — if it is
ever written at all — receives the sentinel. -/
theorem chopRun_prefix_sentinel (mk : ℕ → ℕ → ℝ × ℝ) (avg : ℕ) :
    ∀ (l : List ℕ) (st : ChopState) (i : ℕ), st.ignore = true → st.out = [] →
    i < st.periodSize → i < (chopRun mk avg st l).out.length →
    ((chopRun mk avg st l).out).getD i (0, 0) = (2, 2) := by
  intro l
  induction l with
  | nil =>
    intro st i hig hout hi hlen
    rw [ChopState.chopRun_nil] at hlen ⊢
    rw [hout] at hlen
    simp at hlen
  | cons s rest ih =>
    intro st i hig hout hi hlen
    obtain ⟨ig, wb, ps, out⟩ := st
    simp at hig hout hi
    subst hig hout
    rw [ChopState.chopRun_cons] at hlen ⊢
    by_cases hc : avg < s ∧ wb = false
    · rw [chopStep_flush_ignore mk avg wb ps [] s hc] at hlen ⊢
      rw [List.nil_append] at hlen ⊢
      rw [chopRun_shift mk avg rest false (decide (avg < s)) 0
            (List.replicate (ps + 1) (2, 2))] at hlen ⊢
      simp only []
      rw [getD_append_left]
      · exact getD_replicate_self (ps + 1) i (2, 2) (0, 0) (by omega)
      · simp
        omega
    · rw [chopStep_skip mk avg true wb ps [] s hc] at hlen ⊢
      exact ih ⟨true, decide (avg < s), ps + 1, []⟩ i rfl rfl
        (by show i < ps + 1; omega) hlen

/-- When the final scan output is too short to cover position `i`, the
padding loop (`lockin2.cpp:289-290`) puts the sentinel there. -/
theorem parse_pad_sentinel (signal : List ℕ) (avg : ℕ) (phase : ℝ) (i : ℕ)
    (hi : i < signal.length)
    (hout : (chopRun (chopMk phase) avg
        ⟨true, decide (avg < signal.headI), 0, []⟩ signal).out.length ≤ i) :
    (parseChopperSignal signal avg phase).getD i (0, 0) = (2, 2) := by
  unfold parseChopperSignal
  simp only []
  rw [getD_append_right _ _ _ _ hout]
  exact getD_replicate_self _ _ _ _ (by omega)

/-- Every position of the burst that lies at or before a stretch with no
rising edge reaching back to position `0` — i.e. every sample of the
first, partial run — is marked with the sentinel. -/
theorem parse_prefix_invalid (signal : List ℕ) (avg : ℕ) (phase : ℝ) (i : ℕ)
    (hi : i < signal.length)
    (hedge : ∀ j, j ≤ i → ¬ risingEdgeAt signal avg j) :
    (parseChopperSignal signal avg phase).getD i (0, 0) = (2, 2) := by
  have hnt : noTrigger avg (wbAt signal avg 0) ((signal.drop 0).take (i + 1)) :=
    noTrigger_of_noEdge signal avg (i + 1) 0 (by omega)
      (fun j _ hj => hedge j (by omega))
  rw [List.drop_zero] at hnt
  have hrun := chopRun_noTrigger (chopMk phase) avg (signal.take (i + 1))
    ⟨true, decide (avg < signal.headI), 0, []⟩ hnt
  have hlen1 : (signal.take (i + 1)).length = i + 1 := by
    rw [List.length_take]; omega
  have hsplit := chopRun_split (chopMk phase) avg
    ⟨true, decide (avg < signal.headI), 0, []⟩ signal (i + 1)
  rw [hrun, hlen1] at hsplit
  by_cases hcase :
      i < (chopRun (chopMk phase) avg
        ⟨true, decide (avg < signal.headI), 0, []⟩ signal).out.length
  · have hsent := chopRun_prefix_sentinel (chopMk phase) avg (signal.drop (i + 1))
      ⟨true, (chopRun (chopMk phase) avg ⟨true, decide (avg < signal.headI), 0, []⟩
          (signal.take (i + 1))).wasBigger, 0 + (i + 1), []⟩
      i rfl rfl (by show i < 0 + (i + 1); omega) (by rw [← hsplit]; exact hcase)
    rw [← hsplit] at hsent
    unfold parseChopperSignal
    simp only []
    rw [getD_append_left _ _ _ _ hcase]
    exact hsent
  · exact parse_pad_sentinel signal avg phase i hi (by omega)

/-- Every position of the burst after the last rising edge — the
trailing, not-yet-closed run — is marked with the sentinel. -/
theorem parse_trailing_invalid (signal : List ℕ) (avg : ℕ) (phase : ℝ) (i : ℕ)
    (hi : i < signal.length)
    (hedge : ∀ j, i ≤ j → ¬ risingEdgeAt signal avg j) :
    (parseChopperSignal signal avg phase).getD i (0, 0) = (2, 2) := by
  have hnt : noTrigger avg (wbAt signal avg i)
      ((signal.drop i).take (signal.length - i)) :=
    noTrigger_of_noEdge signal avg (signal.length - i) i (by omega)
      (fun j hj _ => hedge j hj)
  have hdroplen : (signal.drop i).length = signal.length - i := by
    rw [List.length_drop]
  have htake : (signal.drop i).take (signal.length - i) = signal.drop i := by
    rw [← hdroplen, List.take_length]
  rw [htake] at hnt
  have hwb := chopRun_take_wasBigger (chopMk phase) avg signal i (by omega)
  rw [← hwb] at hnt
  have hrun := chopRun_noTrigger (chopMk phase) avg (signal.drop i)
    (chopRun (chopMk phase) avg ⟨true, decide (avg < signal.headI), 0, []⟩
      (signal.take i)) hnt
  have hsplit := chopRun_split (chopMk phase) avg
    ⟨true, decide (avg < signal.headI), 0, []⟩ signal i
  have hl := chopRun_length (chopMk phase) avg (signal.take i)
    ⟨true, decide (avg < signal.headI), 0, []⟩
  simp only [List.length_nil] at hl
  have hlen1 : (signal.take i).length = i := by
    rw [List.length_take]; omega
  rw [hlen1] at hl
  apply parse_pad_sentinel signal avg phase i hi
  rw [hsplit, hrun]
  simp only []
  omega

/-- The padded output of `parseChopperSignal` has exactly the burst's
length (`lockin2.cpp:289-290` together with the scan invariant). -/
theorem parseChopperSignal_length (signal : List ℕ) (avg : ℕ) (phase : ℝ) :
    (parseChopperSignal signal avg phase).length = signal.length := by
  unfold parseChopperSignal
  have h := chopRun_length (chopMk phase) avg signal
    ⟨true, decide (avg < signal.headI), 0, []⟩
  simp only [List.length_nil] at h
  simp only [List.length_append, List.length_replicate]
  omega

/-- A burst with no rising edge at all is padded to an entirely
sentinel output. -/
theorem parse_all_invalid (signal : List ℕ) (avg : ℕ) (phase : ℝ)
    (hedge : ∀ j, ¬ risingEdgeAt signal avg j) :
    parseChopperSignal signal avg phase = List.replicate signal.length (2, 2) := by
  have hnt : noTrigger avg (wbAt signal avg 0) ((signal.drop 0).take signal.length) :=
    noTrigger_of_noEdge signal avg signal.length 0 (by omega) (fun j _ _ => hedge j)
  rw [List.drop_zero, List.take_length] at hnt
  have hrun := chopRun_noTrigger (chopMk phase) avg signal
    ⟨true, decide (avg < signal.headI), 0, []⟩ hnt
  unfold parseChopperSignal
  simp only []
  rw [hrun]
  simp

/-- C7: for every non-empty input burst, the Reference Analyzer's output
(`parseChopperSignal`) has exactly the burst's length; every sample
lying before the first detected rising edge (no edge at any `j ≤ i`)
and every trailing sample after the last detected rising edge (no edge
at any `j ≥ i`) carries the invalid sentinel `(2, 2)`; and a burst
containing zero rising edges yields an output that is invalid at every
position. -/
theorem parse_length_and_boundary_invalid (signal : List ℕ) (avg : ℕ) (phase : ℝ)
    (hs : signal ≠ []) :
    (parseChopperSignal signal avg phase).length = signal.length ∧
    (∀ i, i < signal.length → (∀ j, j ≤ i → ¬ risingEdgeAt signal avg j) →
      (parseChopperSignal signal avg phase).getD i (0, 0) = (2, 2)) ∧
    (∀ i, i < signal.length → (∀ j, i ≤ j → ¬ risingEdgeAt signal avg j) →
      (parseChopperSignal signal avg phase).getD i (0, 0) = (2, 2)) ∧
    ((∀ j, ¬ risingEdgeAt signal avg j) →
      parseChopperSignal signal avg phase = List.replicate signal.length (2, 2)) := by
  refine ⟨parseChopperSignal_length signal avg phase, ?_, ?_, ?_⟩
  · exact fun i hi hedge => parse_prefix_invalid signal avg phase i hi hedge
  · exact fun i hi hedge => parse_trailing_invalid signal avg phase i hi hedge
  · exact fun hedge => parse_all_invalid signal avg phase hedge

/-- Witness for C7 at the concrete burst `[1, 0, 1, 0, 1]` with
average `0` and phase `0`. -/
theorem parse_length_and_boundary_invalid_wit :
    (([1, 0, 1, 0, 1] : List ℕ) ≠ []) ∧
    ((parseChopperSignal [1, 0, 1, 0, 1] 0 0).length =
        ([1, 0, 1, 0, 1] : List ℕ).length ∧
     (∀ i, i < ([1, 0, 1, 0, 1] : List ℕ).length →
        (∀ j, j ≤ i → ¬ risingEdgeAt [1, 0, 1, 0, 1] 0 j) →
        (parseChopperSignal [1, 0, 1, 0, 1] 0 0).getD i (0, 0) = (2, 2)) ∧
     (∀ i, i < ([1, 0, 1, 0, 1] : List ℕ).length →
        (∀ j, i ≤ j → ¬ risingEdgeAt [1, 0, 1, 0, 1] 0 j) →
        (parseChopperSignal [1, 0, 1, 0, 1] 0 0).getD i (0, 0) = (2, 2)) ∧
     ((∀ j, ¬ risingEdgeAt [1, 0, 1, 0, 1] 0 j) →
        parseChopperSignal [1, 0, 1, 0, 1] 0 0 =
          List.replicate ([1, 0, 1, 0, 1] : List ℕ).length (2, 2))) :=
  ⟨by decide, parse_length_and_boundary_invalid [1, 0, 1, 0, 1] 0 0 (by decide)⟩

theorem demodulate_nil_left (ps : List (ℝ × ℝ)) : demodulate [] ps = [] := by
  unfold demodulate
  rfl

theorem demodulate_cons_valid (l : ℕ) (ls : List ℕ) (p : ℝ × ℝ) (ps : List (ℝ × ℝ))
    (h : p.1 ≠ 2) :
    demodulate (l :: ls) (p :: ps) =
      (p.1 * (l : ℝ), p.2 * (l : ℝ)) :: demodulate ls ps := by
  simp only [demodulate]
  rw [if_pos h]

theorem demodulate_cons_invalid (l : ℕ) (ls : List ℕ) (p : ℝ × ℝ) (ps : List (ℝ × ℝ))
    (h : p.1 = 2) :
    demodulate (l :: ls) (p :: ps) =
      ((1 : ℝ) / 2, (1 : ℝ) / 2) :: demodulate ls ps := by
  simp only [demodulate]
  rw [if_neg (by simp [h])]

/-- The demodulated burst has one entry per sample (the source indexes
`chopperSinCos[i]` for `i` below `leftSignal.size()`, the two lists
having equal length there). -/
theorem demodulate_length :
    ∀ (ls : List ℕ) (ps : List (ℝ × ℝ)),
    (demodulate ls ps).length = min ls.length ps.length := by
  intro ls
  induction ls with
  | nil => intro ps; rw [demodulate_nil_left]; simp
  | cons l rest ih =>
    intro ps
    cases ps with
    | nil => unfold demodulate; simp
    | cons p ps' =>
      by_cases h : p.1 = 2
      · rw [demodulate_cons_invalid l rest p ps' h]
        simp [ih]
        omega
      · rw [demodulate_cons_valid l rest p ps' h]
        simp [ih]
        omega

/-- The averaging loop skips every window entry carrying `0.5` in its
first or its second component (the `ignoreValue` test at
`lockin2.cpp:235`), wherever it sits in the window. -/
theorem sumValid_skip (d1 d2 : List (ℝ × ℝ)) (p : ℝ × ℝ)
    (h : p.1 = (1 : ℝ) / 2 ∨ p.2 = (1 : ℝ) / 2) :
    sumValid (d1 ++ p :: d2) = sumValid (d1 ++ d2) := by
  unfold sumValid
  rw [List.foldl_append, List.foldl_append, List.foldl_cons]
  congr 1
  rw [if_neg]
  rintro ⟨h1, h2⟩
  rcases h with h | h
  · exact h1 h
  · exact h2 h

/-- The accumulator of the averaging loop, from an arbitrary starting
accumulator: it adds the count, the x-sum and the y-sum of the entries
that pass the sentinel test. -/
theorem sumValid_loop (d : List (ℝ × ℝ)) :
    ∀ (c x y : ℝ),
    d.foldl
      (fun acc p =>
        if p.1 ≠ (1 : ℝ) / 2 ∧ p.2 ≠ (1 : ℝ) / 2 then
          (acc.1 + 1, acc.2.1 + p.1, acc.2.2 + p.2)
        else acc)
      (c, x, y) =
      (c + ((d.filter fun p => decide (p.1 ≠ (1 : ℝ) / 2 ∧ p.2 ≠ (1 : ℝ) / 2)).length : ℝ),
       x + ((d.filter fun p => decide (p.1 ≠ (1 : ℝ) / 2 ∧ p.2 ≠ (1 : ℝ) / 2)).map Prod.fst).sum,
       y + ((d.filter fun p => decide (p.1 ≠ (1 : ℝ) / 2 ∧ p.2 ≠ (1 : ℝ) / 2)).map Prod.snd).sum) := by
  induction d with
  | nil => intro c x y; simp
  | cons p rest ih =>
    intro c x y
    rw [List.foldl_cons]
    by_cases h : p.1 ≠ (1 : ℝ) / 2 ∧ p.2 ≠ (1 : ℝ) / 2
    · rw [if_pos h]
      rw [ih]
      rw [List.filter_cons_of_pos (by simpa using h)]
      simp
      constructor
      · ring
      constructor
      · ring
      · ring
    · rw [if_neg h]
      rw [ih]
      rw [List.filter_cons_of_neg (by simpa using h)]

/-- Closed form of the averaging loop: count, x-sum and y-sum over the
entries passing the sentinel test. -/
theorem sumValid_eq_filter (d : List (ℝ × ℝ)) :
    sumValid d =
      (((d.filter fun p => decide (p.1 ≠ (1 : ℝ) / 2 ∧ p.2 ≠ (1 : ℝ) / 2)).length : ℝ),
       ((d.filter fun p => decide (p.1 ≠ (1 : ℝ) / 2 ∧ p.2 ≠ (1 : ℝ) / 2)).map Prod.fst).sum,
       ((d.filter fun p => decide (p.1 ≠ (1 : ℝ) / 2 ∧ p.2 ≠ (1 : ℝ) / 2)).map Prod.snd).sum) := by
  unfold sumValid
  rw [sumValid_loop]
  simp

/-- The trimming loop keeps short windows unchanged. -/
theorem trimFront_of_le (cap : ℕ) (d : List (ℝ × ℝ)) (h : d.length ≤ cap) :
    trimFront cap d = d := by
  cases d with
  | nil => rfl
  | cons p rest =>
    unfold trimFront
    rw [if_neg]
    omega

/-- The trimming loop drops exactly the leading overflow: the result is
the suffix of the last `cap` entries once the window is at least at
capacity. -/
theorem trimFront_eq_drop :
    ∀ (d : List (ℝ × ℝ)) (cap : ℕ), cap ≤ d.length →
    trimFront cap d = d.drop (d.length - cap) := by
  intro d
  induction d with
  | nil => intro cap h; simp at h; simp [h, trimFront]
  | cons p rest ih =>
    intro cap h
    unfold trimFront
    by_cases hlt : cap < (p :: rest).length
    · rw [if_pos hlt]
      have hcap : cap ≤ rest.length := by
        simp at hlt
        omega
      rw [ih cap hcap]
      have : (p :: rest).length - cap = (rest.length - cap) + 1 := by
        simp
        omega
      rw [this]
      rfl
    · rw [if_neg hlt]
      have : (p :: rest).length - cap = 0 := by omega
      rw [this]
      rfl

/-- Closed form of the backwards vumeter loop from any partial
accumulator: prepend (at most `cap - acc.length`) valid entries taken
from the front of the reversed burst, in reversed (i.e. restored
chronological) order. -/
theorem vumeterLoop_eq (cap : ℕ) :
    ∀ (rl : List (ℕ × (ℝ × ℝ))) (acc : List (ℝ × ℝ)), acc.length ≤ cap →
    vumeterLoop cap rl acc =
      ((rl.filterMap fun lp =>
          if lp.2.1 ≠ 2 then some ((lp.1 : ℝ), lp.2.1) else none).take
        (cap - acc.length)).reverse ++ acc := by
  intro rl
  induction rl with
  | nil => intro acc _; simp [vumeterLoop]
  | cons lp rest ih =>
    intro acc hacc
    obtain ⟨l, p⟩ := lp
    unfold vumeterLoop
    by_cases hfull : cap ≤ acc.length
    · rw [if_pos hfull]
      have : cap - acc.length = 0 := by omega
      rw [this]
      simp
    · rw [if_neg hfull]
      by_cases hval : p.1 ≠ 2
      · rw [if_pos hval]
        rw [ih (((l : ℝ), p.1) :: acc) (by simp; omega)]
        have hfm : List.filterMap
              (fun lp => if lp.2.1 ≠ 2 then some ((lp.1 : ℝ), lp.2.1) else none)
              ((l, p) :: rest) =
            ((l : ℝ), p.1) :: List.filterMap
              (fun lp => if lp.2.1 ≠ 2 then some ((lp.1 : ℝ), lp.2.1) else none) rest := by
          simp [List.filterMap_cons, hval]
        rw [hfm]
        have hsub : cap - acc.length = (cap - (((l : ℝ), p.1) :: acc).length) + 1 := by
          simp
          omega
        rw [hsub, List.take_succ_cons]
        simp
      · rw [if_neg hval]
        rw [ih acc hacc]
        have hfm : List.filterMap
              (fun lp => if lp.2.1 ≠ 2 then some ((lp.1 : ℝ), lp.2.1) else none)
              ((l, p) :: rest) =
            List.filterMap
              (fun lp => if lp.2.1 ≠ 2 then some ((lp.1 : ℝ), lp.2.1) else none) rest := by
          simp [List.filterMap_cons, hval]
        rw [hfm]

/-- `Lockin2`'s vumeter rebuild equals: the chronological list of valid
`(measurement, sin-component)` pairs of the burst, truncated to its
most recent `cap` entries. -/
theorem buildVumeter_eq (cap : ℕ) (leftSignal : List ℕ) (sc : List (ℝ × ℝ)) :
    buildVumeter cap leftSignal sc =
      ((leftSignal.zip sc).filterMap fun lp =>
          if lp.2.1 ≠ 2 then some ((lp.1 : ℝ), lp.2.1) else none).drop
        (((leftSignal.zip sc).filterMap fun lp =>
          if lp.2.1 ≠ 2 then some ((lp.1 : ℝ), lp.2.1) else none).length - cap) := by
  unfold buildVumeter
  rw [vumeterLoop_eq cap _ [] (by simp)]
  rw [List.filterMap_reverse]
  rw [List.take_reverse]
  simp

/-- The state right after a successful `start` from the constructor
defaults with sample rate `1`. -/
noncomputable def activeLockin : Lockin := (start lockinInit 1 true).1

/-- C2 counterexample: `setPhase` called on an active session *does*
change the stored phase — `Lockin2::setPhase` (`lockin2.cpp:109-112`)
has no `_audioInput == 0` guard, unlike the other three setters.  So
the claim that all four configuration setters are no-ops while active
fails at this input. -/
theorem setPhase_active_changes_phase :
    activeLockin.audioActive = true ∧ activeLockin.phase = 0 ∧
    (setPhase activeLockin 1).phase = 1 := by
  refine ⟨?_, ?_, rfl⟩ <;> simp [activeLockin, start, lockinInit]

/-- C2 amended: the output-period, integration-time and vumeter-time
setters are no-ops while the session is active (`lockin2.cpp:85-107`),
but `setPhase` stores its argument unconditionally, active or not
(`lockin2.cpp:109-112`). -/
theorem guarded_setters_noop_while_active (s : Lockin) (v : ℝ) :
    (s.audioActive = true →
      setOutputPeriod s v = s ∧ setIntegrationTime s v = s ∧ setVumeterTime s v = s) ∧
    setPhase s v = { s with phase := v } := by
  constructor
  · intro h
    refine ⟨?_, ?_, ?_⟩
    · unfold setOutputPeriod; rw [if_neg]; simp [h]
    · unfold setIntegrationTime; rw [if_neg]; simp [h]
    · unfold setVumeterTime; rw [if_neg]; simp [h]
  · rfl

/-- Witness for the amended C2 on the concrete active state. -/
theorem guarded_setters_noop_while_active_wit :
    activeLockin.audioActive = true ∧
    (setOutputPeriod activeLockin 9 = activeLockin ∧
     setIntegrationTime activeLockin 9 = activeLockin ∧
     setVumeterTime activeLockin 9 = activeLockin) ∧
    setPhase activeLockin 9 = { activeLockin with phase := 9 } := by
  have ha : activeLockin.audioActive = true := by simp [activeLockin, start, lockinInit]
  exact ⟨ha, (guarded_setters_noop_while_active activeLockin 9).1 ha,
    (guarded_setters_noop_while_active activeLockin 9).2⟩

/-- Concrete evaluation of the Reference Analyzer on the burst
`[1, 0, 1, 0, 1]` with average `0`: the scan sees rising edges at
positions `2` and `4`, marks positions `0`-`2` (the first, partial run)
invalid, and synthesizes the closed run of length `2` over positions
`3`-`4` with angles `M_2_PI * 0 / 2 + phase` and `M_2_PI * 1 / 2 + phase`. -/
theorem parse_example (phase : ℝ) :
    parseChopperSignal [1, 0, 1, 0, 1] 0 phase =
      [(2, 2), (2, 2), (2, 2),
       (Real.sin phase, Real.cos phase),
       (Real.sin (M_2_PI / 2 + phase), Real.cos (M_2_PI / 2 + phase))] := by
  simp [parseChopperSignal, chopRun, chopStep, chopMk, List.foldl, List.range_succ]

/-- C1 (code bug): the entry the code synthesizes at index `1` of the
closed run of length `2` is `(sin, cos)` of `M_2_PI * 1 / 2 + 0` where
`M_2_PI` is `2 / π` — it is *not* the `(sin, cos)` of `2π * 1 / 2 + 0`
that the spec's `angle = 2π·i/L + phase` formula prescribes.  The run
sweeps `2/π ≈ 0.64` radians instead of one full `2π` cycle. -/
theorem chopper_angle_uses_two_over_pi :
    M_2_PI = 2 / Real.pi ∧
    (parseChopperSignal [1, 0, 1, 0, 1] 0 0).getD 4 (0, 0) =
      (Real.sin (M_2_PI * 1 / 2 + 0), Real.cos (M_2_PI * 1 / 2 + 0)) ∧
    (parseChopperSignal [1, 0, 1, 0, 1] 0 0).getD 4 (0, 0) ≠
      (Real.sin (2 * Real.pi * 1 / 2 + 0), Real.cos (2 * Real.pi * 1 / 2 + 0)) := by
  have hpi := Real.pi_gt_three
  refine ⟨rfl, ?_, ?_⟩
  · rw [parse_example 0]
    simp [List.getD]
  · rw [parse_example 0]
    intro heq
    have hfst : Real.sin (M_2_PI / 2 + 0) = Real.sin (2 * Real.pi * 1 / 2 + 0) := by
      simpa using congrArg Prod.fst heq
    have h2 : (2 * Real.pi * 1 / 2 + 0) = Real.pi := by ring
    have h3 : M_2_PI / 2 + 0 = 1 / Real.pi := by unfold M_2_PI; ring
    rw [h2, h3, Real.sin_pi] at hfst
    have hpos : 0 < Real.sin (1 / Real.pi) := by
      apply Real.sin_pos_of_pos_of_lt_pi
      · positivity
      · rw [div_lt_iff (by linarith)]
        nlinarith
    rw [hfst] at hpos
    exact lt_irrefl 0 hpos

theorem demod_parse_length (leftSignal chopperSignal : List ℕ) (avg : ℕ) (phase : ℝ)
    (h : leftSignal.length = chopperSignal.length) :
    (demodulate leftSignal (parseChopperSignal chopperSignal avg phase)).length =
      leftSignal.length := by
  rw [demodulate_length, parseChopperSignal_length, h]
  simp

/-- Every cycle advances the time cursor by exactly one output period —
`_timeValue += _outputPeriod` runs first, before any of the bail-out
paths (`lockin2.cpp:144`) — and leaves the configuration fields
untouched. -/
theorem interpretInput_fields (s : Lockin) (burst : List (ℕ × ℕ)) (lf : Bool) :
    (interpretInput s burst lf).1.timeValue = s.timeValue + s.outputPeriod ∧
    (interpretInput s burst lf).1.outputPeriod = s.outputPeriod ∧
    (interpretInput s burst lf).1.integrationTime = s.integrationTime ∧
    (interpretInput s burst lf).1.sampleIntegration = s.sampleIntegration ∧
    (interpretInput s burst lf).1.sampleVumeter = s.sampleVumeter ∧
    (interpretInput s burst lf).1.phase = s.phase := by
  unfold interpretInput
  cases lf <;> split_ifs <;> simp_all <;> split_ifs <;> simp_all

/-- C6: a processing cycle emits no `(time, x, y)` event exactly when
the burst is empty (`lockin2.cpp:178-181`) or the integration window —
which grows by one demodulated sample per burst sample — still holds
fewer than `_sampleIntegration` entries after the burst was appended
(`lockin2.cpp:220-223`); equivalently, emission begins on the first
cycle at which the window reaches that threshold, and not before. -/
theorem emission_iff_window_full (s : Lockin) (burst : List (ℕ × ℕ)) (lf : Bool) :
    (interpretInput s burst lf).2 = none ↔
      burst = [] ∨ s.data.length + burst.length < s.sampleIntegration := by
  unfold interpretInput
  by_cases hb : burst.length = 0
  · rw [if_pos hb]
    simp [List.length_eq_zero.mp hb]
  · rw [if_neg hb]
    simp only []
    have hlen : (demodulate (burst.map Prod.fst)
        (parseChopperSignal (burst.map Prod.snd)
          ((burst.map Prod.snd).sum / burst.length) s.phase)).length = burst.length := by
      rw [demod_parse_length] <;> simp
    have hbne : ¬ burst = [] := by
      intro h; rw [h] at hb; simp at hb
    cases lf
    · rw [if_neg (show ¬((false : Bool) = true) by simp)]
      split_ifs with h2 <;>
        simp only [List.length_append, List.length_map, hlen] at h2 <;>
        simp [hbne, h2]
    · rw [if_pos rfl]
      split_ifs with h2 <;>
        simp only [List.length_append, List.length_map, hlen] at h2 <;>
        simp [hbne, h2]

/-- C8: the integration window never exceeds its capacity
`_sampleIntegration` at the end of a cycle, and eviction removes
entries only from the front (FIFO): the resulting window is a suffix of
the old window followed by the burst's demodulated samples, in order
(`lockin2.cpp:220-227`). -/
theorem window_capacity_fifo (s : Lockin) (burst : List (ℕ × ℕ)) (lf : Bool)
    (h : s.data.length ≤ s.sampleIntegration) :
    (interpretInput s burst lf).1.data.length ≤ s.sampleIntegration ∧
    ∃ k, (interpretInput s burst lf).1.data =
      (s.data ++ demodulate (burst.map Prod.fst)
        (parseChopperSignal (burst.map Prod.snd)
          ((burst.map Prod.snd).sum / burst.length) s.phase)).drop k := by
  unfold interpretInput
  by_cases hb : burst.length = 0
  · rw [if_pos hb]
    have hnil : burst = [] := List.length_eq_zero.mp hb
    subst hnil
    refine ⟨h, 0, ?_⟩
    simp [demodulate_nil_left]
  · rw [if_neg hb]
    simp only []
    have hlen : (demodulate (burst.map Prod.fst)
        (parseChopperSignal (burst.map Prod.snd)
          ((burst.map Prod.snd).sum / burst.length) s.phase)).length = burst.length := by
      rw [demod_parse_length] <;> simp
    cases lf <;>
      first
        | rw [if_neg (show ¬((false : Bool) = true) by simp)]
        | rw [if_pos rfl]
    all_goals
      split_ifs with h2
      · refine ⟨?_, 0, ?_⟩
        · simp only [List.length_append, List.length_map, hlen] at h2 ⊢
          omega
        · simp
      · simp only [not_lt, List.length_append, List.length_map, hlen] at h2
        have hcap : s.sampleIntegration ≤ (s.data ++ demodulate (burst.map Prod.fst)
            (parseChopperSignal (burst.map Prod.snd)
              ((burst.map Prod.snd).sum / burst.length) s.phase)).length := by
          simp only [List.length_append, hlen]
          omega
        refine ⟨?_, (s.data ++ demodulate (burst.map Prod.fst)
            (parseChopperSignal (burst.map Prod.snd)
              ((burst.map Prod.snd).sum / burst.length) s.phase)).length -
              s.sampleIntegration, ?_⟩
        · simp only [trimFront_eq_drop _ _ hcap, List.length_drop]
          omega
        · simp only [trimFront_eq_drop _ _ hcap]

/-- Witness for C8: one burst of one sample into an empty window of
capacity one. -/
theorem window_capacity_fifo_wit :
    lockinInit.data.length ≤ lockinInit.sampleIntegration ∧
    ((interpretInput lockinInit [(7, 5)] true).1.data.length ≤ lockinInit.sampleIntegration ∧
     ∃ k, (interpretInput lockinInit [(7, 5)] true).1.data =
       (lockinInit.data ++ demodulate ([(7, 5)].map Prod.fst)
         (parseChopperSignal ([(7, 5)].map Prod.snd)
           (([(7, 5)].map Prod.snd).sum / ([(7, 5)] : List (ℕ × ℕ)).length)
           lockinInit.phase)).drop k) :=
  ⟨by simp [lockinInit], window_capacity_fifo lockinInit [(7, 5)] true (by simp [lockinInit])⟩

/-- The time cursor after any sequence of cycles: every invocation of
`interpretInput` adds one `outputPeriod`, whether or not it emitted. -/
theorem runCycles_timeValue :
    ∀ (inputs : List (List (ℕ × ℕ) × Bool)) (s : Lockin),
    (runCycles s inputs).timeValue = s.timeValue + inputs.length * s.outputPeriod := by
  intro inputs
  induction inputs with
  | nil => intro s; simp [runCycles]
  | cons inp rest ih =>
    intro s
    have hf := interpretInput_fields s inp.1 inp.2
    show (runCycles (interpretInput s inp.1 inp.2).1 rest).timeValue = _
    rw [ih, hf.1, hf.2.1]
    simp
    ring

/-- C4 amended: after a successful `start`, the time cursor equals
`-(integrationTime / 2) + M · outputPeriod` where `M` counts *every*
processing cycle — emitting or not — because `_timeValue +=
_outputPeriod` runs before the empty-burst and cold-start bail-outs
(`lockin2.cpp:144`, `lockin2.cpp:178-181`, `lockin2.cpp:220-223`). -/
theorem timeValue_formula_all_cycles (s : Lockin) (rate : ℕ)
    (inputs : List (List (ℕ × ℕ) × Bool)) (h : s.audioActive = false) :
    (runCycles (start s rate true).1 inputs).timeValue =
      -(s.integrationTime / 2) + inputs.length * s.outputPeriod := by
  rw [runCycles_timeValue]
  unfold start
  rw [h]
  simp

/-- Witness for the amended C4: one empty cycle after starting from the
constructor defaults. -/
theorem timeValue_formula_all_cycles_wit :
    lockinInit.audioActive = false ∧
    (runCycles (start lockinInit 1 true).1 [([], true)]).timeValue =
      -(lockinInit.integrationTime / 2) +
        ([([], true)] : List (List (ℕ × ℕ) × Bool)).length * lockinInit.outputPeriod :=
  ⟨rfl, timeValue_formula_all_cycles lockinInit 1 [([], true)] rfl⟩

/-- A freshly started session with integration time `2`, output period
`1` and sample rate `1`: capacity `_sampleIntegration = 2`, time cursor
`-1`. -/
noncomputable def startedLockin : Lockin :=
  (start { lockinInit with integrationTime := 2, outputPeriod := 1 } 1 true).1

/-- C4 counterexample: with integration time `2` and output period `1`,
run one empty (non-emitting) cycle and then one emitting cycle.  The
first emitted event (`N = 1`) carries time `1`, but the claim's formula
`-integrationTime/2 + N·outputPeriod = -1 + 1 = 0` — the time cursor
advanced on the non-emitting cycle too, so the claim fails on this
interleaving. -/
theorem timeValue_counts_nonemitting_cycles :
    (interpretInput startedLockin [] true).2 = none ∧
    (interpretInput (interpretInput startedLockin [] true).1 [(7, 5), (9, 5)] true).2 =
      some (1, 0 / 0, 0 / 0) ∧
    (1 : ℝ) ≠ -(2 / 2) + 1 * 1 := by
  have hstart : startedLockin =
      { audioActive := true, outputPeriod := 1, integrationTime := 2,
        vumeterTime := 1 / 50, phase := 0, timeValue := -1,
        sampleIntegration := 2, sampleVumeter := 0, data := [],
        vumeterData := [], xValue := 0, yValue := 0 } := by
    unfold startedLockin start lockinInit
    norm_num
    decide
  refine ⟨?_, ?_, by norm_num⟩
  · rw [emission_iff_window_full]
    simp
  · rw [hstart]
    unfold interpretInput
    norm_num [parseChopperSignal, chopRun, chopStep, List.foldl, demodulate,
      sumValid, trimFront, buildVumeter, vumeterLoop]

/-- C9: when the vumeter mutex is free, the snapshot after a non-empty
burst is exactly the chronological list of the burst's valid
`(measurement, sin-component)` pairs truncated to its most recent
`_sampleVumeter` entries (`lockin2.cpp:201-211`).  The right-hand side
depends only on the burst, the phase and the capacity — nothing of the
previous snapshot survives. -/
theorem vumeter_rebuild_spec (s : Lockin) (burst : List (ℕ × ℕ)) (h : burst ≠ []) :
    (interpretInput s burst true).1.vumeterData =
      (((burst.map Prod.fst).zip
          (parseChopperSignal (burst.map Prod.snd)
            ((burst.map Prod.snd).sum / burst.length) s.phase)).filterMap fun lp =>
          if lp.2.1 ≠ 2 then some ((lp.1 : ℝ), lp.2.1) else none).drop
        ((((burst.map Prod.fst).zip
          (parseChopperSignal (burst.map Prod.snd)
            ((burst.map Prod.snd).sum / burst.length) s.phase)).filterMap fun lp =>
          if lp.2.1 ≠ 2 then some ((lp.1 : ℝ), lp.2.1) else none).length -
          s.sampleVumeter) := by
  unfold interpretInput
  rw [if_neg (by simpa using h)]
  simp only []
  rw [if_pos trivial]
  split_ifs with h2 <;> · simp only []; rw [buildVumeter_eq]

/-- Witness for C9: a one-sample burst on the constructor defaults. -/
theorem vumeter_rebuild_spec_wit :
    (([(7, 5)] : List (ℕ × ℕ)) ≠ []) ∧
    (interpretInput lockinInit [(7, 5)] true).1.vumeterData =
      ((([(7, 5)].map Prod.fst).zip
          (parseChopperSignal ([(7, 5)].map Prod.snd)
            (([(7, 5)].map Prod.snd).sum / ([(7, 5)] : List (ℕ × ℕ)).length)
            lockinInit.phase)).filterMap fun lp =>
          if lp.2.1 ≠ 2 then some ((lp.1 : ℝ), lp.2.1) else none).drop
        (((([(7, 5)].map Prod.fst).zip
          (parseChopperSignal ([(7, 5)].map Prod.snd)
            (([(7, 5)].map Prod.snd).sum / ([(7, 5)] : List (ℕ × ℕ)).length)
            lockinInit.phase)).filterMap fun lp =>
          if lp.2.1 ≠ 2 then some ((lp.1 : ℝ), lp.2.1) else none).length -
          lockinInit.sampleVumeter) :=
  ⟨by simp, vumeter_rebuild_spec lockinInit [(7, 5)] (by simp)⟩

/-- An active session whose next burst fills the whole integration
window with boundary-marked samples: capacity `2`, empty window. -/
noncomputable def noLockState : Lockin :=
  { audioActive := true, outputPeriod := 1, integrationTime := 2, vumeterTime := 0,
    phase := 0, timeValue := 0, sampleIntegration := 2, sampleVumeter := 0,
    data := [], vumeterData := [], xValue := 0, yValue := 0 }

/-- Full evaluation of one cycle on `noLockState` with the burst
`[(7, 5), (9, 5)]`: the chopper channel `[5, 5]` has average `5` and no
rising edge, so both demodulated samples are the `(0.5, 0.5)` sentinel;
the window reaches its capacity `2` and the cycle emits with
`dataCount = 0`, i.e. `x = y = 0/0` (which is `0` in `ℝ`; `NaN` in
IEEE doubles). -/
theorem noLock_eval :
    interpretInput noLockState [(7, 5), (9, 5)] true =
      ({ noLockState with
          timeValue := 1,
          data := [(1 / 2, 1 / 2), (1 / 2, 1 / 2)],
          xValue := 0,
          yValue := 0 },
        some (1, 0, 0)) := by
  unfold interpretInput noLockState
  norm_num [parseChopperSignal, chopRun, chopStep, List.foldl, demodulate,
    sumValid, trimFront, buildVumeter, vumeterLoop]

/-- C3 (code bug): a primed window holding zero valid samples does
*not* yield a distinct "no lock" indication — the cycle still emits
`newValues(_timeValue, x, y)` with `x = y = sum/dataCount` where
`dataCount = 0` (`lockin2.cpp:229-248`).  In IEEE doubles `0.0/0.0` is
`NaN`; in this real-number model division by zero is total and the
emitted pair is `(0/0, 0/0) = (0, 0)`.  Either way, the emission is
indistinguishable in kind from a valid measurement. -/
theorem emission_with_zero_valid_samples :
    (interpretInput noLockState [(7, 5), (9, 5)] true).2 = some (1, 0 / 0, 0 / 0) ∧
    (sumValid (interpretInput noLockState [(7, 5), (9, 5)] true).1.data).1 = 0 := by
  rw [noLock_eval]
  norm_num [sumValid, List.foldl]

/-- The synthesized sine at index `1` of the example's closed run is a
genuine sine value, in particular not the sentinel `2`. -/
theorem exSin_ne_two : Real.sin (M_2_PI / 2 + Real.pi / 6) ≠ 2 := by
  have h1 := Real.sin_le_one (M_2_PI / 2 + Real.pi / 6)
  intro h
  rw [h] at h1
  norm_num at h1

/-- The example burst's chopper parse with phase `π/6`: the closed run
of length `2` gets angles `π/6` and `M_2_PI/2 + π/6`, and
`sin(π/6) = 1/2`, `cos(π/6) = √3/2`. -/
theorem exParse_eval :
    parseChopperSignal [1, 0, 1, 0, 1] 0 (Real.pi / 6) =
      [(2, 2), (2, 2), (2, 2), (1 / 2, Real.sqrt 3 / 2),
       (Real.sin (M_2_PI / 2 + Real.pi / 6), Real.cos (M_2_PI / 2 + Real.pi / 6))] := by
  rw [parse_example (Real.pi / 6)]
  rw [Real.sin_pi_div_six, Real.cos_pi_div_six]

/-- Demodulating the example: the three boundary samples become the
`(0.5, 0.5)` sentinel; the sample at index `3` (measurement `1`,
chopper angle `π/6`) is stored as the genuinely valid pair
`(0.5, √3/2)`; the sample at index `4` has measurement `0` and is
stored as `(0, 0)`. -/
theorem exDemod_eval :
    demodulate [1, 1, 1, 1, 0]
      [(2, 2), (2, 2), (2, 2), (1 / 2, Real.sqrt 3 / 2),
       (Real.sin (M_2_PI / 2 + Real.pi / 6), Real.cos (M_2_PI / 2 + Real.pi / 6))] =
      [(1 / 2, 1 / 2), (1 / 2, 1 / 2), (1 / 2, 1 / 2),
       (1 / 2, Real.sqrt 3 / 2), (0, 0)] := by
  rw [demodulate_cons_invalid _ _ _ _ rfl, demodulate_cons_invalid _ _ _ _ rfl,
      demodulate_cons_invalid _ _ _ _ rfl,
      demodulate_cons_valid _ _ _ _ (by norm_num),
      demodulate_cons_valid _ _ _ _ exSin_ne_two,
      demodulate_nil_left]
  norm_num

theorem exData_eval :
    demodulate [1, 1, 1, 1, 0] (parseChopperSignal [1, 0, 1, 0, 1] 0 (Real.pi / 6)) =
      [(1 / 2, 1 / 2), (1 / 2, 1 / 2), (1 / 2, 1 / 2),
       (1 / 2, Real.sqrt 3 / 2), (0, 0)] := by
  rw [exParse_eval, exDemod_eval]

/-- The averaging loop on the example window counts exactly one entry —
the `(0, 0)` sample — because the valid `(0.5, √3/2)` sample collides
with the sentinel test on its first component. -/
theorem exSum_eval :
    sumValid [((1 : ℝ) / 2, (1 : ℝ) / 2), (1 / 2, 1 / 2), (1 / 2, 1 / 2),
      (1 / 2, Real.sqrt 3 / 2), (0, 0)] = (1, 0, 0) := by
  unfold sumValid
  norm_num [List.foldl]

/-- An active session with phase `π/6` and capacity `5`, about to be
filled by the example burst in one cycle. -/
noncomputable def exState : Lockin :=
  { audioActive := true, outputPeriod := 1, integrationTime := 5, vumeterTime := 0,
    phase := Real.pi / 6, timeValue := 0, sampleIntegration := 5, sampleVumeter := 0,
    data := [], vumeterData := [], xValue := 0, yValue := 0 }

/-- The example window is exactly at capacity, so trimming keeps it. -/
theorem exTrim_eval :
    trimFront 5 [((1 : ℝ) / 2, (1 : ℝ) / 2), (1 / 2, 1 / 2), (1 / 2, 1 / 2),
      (1 / 2, Real.sqrt 3 / 2), (0, 0)] =
      [((1 : ℝ) / 2, (1 : ℝ) / 2), (1 / 2, 1 / 2), (1 / 2, 1 / 2),
       (1 / 2, Real.sqrt 3 / 2), (0, 0)] :=
  trimFront_of_le 5 _ (by simp)

/-- The spec's mean over the *valid* demodulated samples of the example
burst: the two valid samples are `(1/2, √3/2)` and `(0, 0)`, so the
mean is `(1/4, √3/4)`. -/
theorem exValidMean_eval :
    specValidMean [1, 1, 1, 1, 0]
      [(2, 2), (2, 2), (2, 2), (1 / 2, Real.sqrt 3 / 2),
       (Real.sin (M_2_PI / 2 + Real.pi / 6), Real.cos (M_2_PI / 2 + Real.pi / 6))] =
      (1 / 4, Real.sqrt 3 / 4) := by
  unfold specValidMean
  norm_num [List.zip, List.zipWith, List.filterMap, exSin_ne_two]
  ring

/-- C5 counterexample: on the example burst the cycle emits the mean
`(0, 0)` — the genuinely valid sample `(0.5, √3/2)` (demodulated from a
closed chopper run, measurement `1`, angle `π/6`) is excluded by the
`0.5` sentinel test — while the mean over the burst's valid demodulated
entries prescribed by the claim is `(1/4, √3/4)`.  So the emitted mean
does not equal the mean of the valid entries for every choice of valid
sample values. -/
theorem emitted_mean_misses_half_valued_valid_sample :
    (interpretInput exState [(1, 1), (1, 0), (1, 1), (1, 0), (0, 1)] true).2 =
      some (1, 0, 0) ∧
    specValidMean ([(1, 1), (1, 0), (1, 1), (1, 0), (0, 1)].map Prod.fst)
      (parseChopperSignal ([(1, 1), (1, 0), (1, 1), (1, 0), (0, 1)].map Prod.snd)
        (([(1, 1), (1, 0), (1, 1), (1, 0), (0, 1)].map Prod.snd).sum /
          ([(1, 1), (1, 0), (1, 1), (1, 0), (0, 1)] : List (ℕ × ℕ)).length)
        exState.phase) =
      (1 / 4, Real.sqrt 3 / 4) ∧
    ((0 : ℝ), (0 : ℝ)) ≠ ((1 / 4 : ℝ), Real.sqrt 3 / 4) := by
  have hmaps : ([(1, 1), (1, 0), (1, 1), (1, 0), (0, 1)].map Prod.snd : List ℕ) =
      [1, 0, 1, 0, 1] := rfl
  have hmapf : ([(1, 1), (1, 0), (1, 1), (1, 0), (0, 1)].map Prod.fst : List ℕ) =
      [1, 1, 1, 1, 0] := rfl
  have hphase : exState.phase = Real.pi / 6 := rfl
  refine ⟨?_, ?_, ?_⟩
  · unfold interpretInput
    rw [if_neg (by norm_num)]
    simp only [hmaps, hmapf, hphase]
    rw [if_pos trivial]
    have havg : (([1, 0, 1, 0, 1] : List ℕ).sum /
        ([(1, 1), (1, 0), (1, 1), (1, 0), (0, 1)] : List (ℕ × ℕ)).length) = 0 := rfl
    rw [havg, exParse_eval, exDemod_eval]
    simp only [exState, List.nil_append]
    rw [if_neg (by simp)]
    rw [exTrim_eval, exSum_eval]
    norm_num
  · rw [hmaps, hmapf, hphase]
    have havg : (([1, 0, 1, 0, 1] : List ℕ).sum /
        ([(1, 1), (1, 0), (1, 1), (1, 0), (0, 1)] : List (ℕ × ℕ)).length) = 0 := rfl
    rw [havg, exParse_eval, exValidMean_eval]
  · intro h
    have h1 : (0 : ℝ) = 1 / 4 := congrArg Prod.fst h
    norm_num at h1

/-- C5 amended: the emitted mean is the sum over the entries passing
the `0.5` sentinel test divided by their count — not by the window
size — and inserting any number of boundary-marked `(0.5, 0.5)`
entries anywhere in the window leaves the averaging loop's result
unchanged.  (The unamended claim, quantifying over *every* choice of
valid sample values, fails when a valid sample has a component equal to
`0.5`; see the counterexample.) -/
theorem mean_excludes_sentinel_and_counts_valid :
    (∀ (d1 d2 : List (ℝ × ℝ)) (k : ℕ),
      sumValid (d1 ++ (List.replicate k ((1 : ℝ) / 2, (1 : ℝ) / 2) ++ d2)) =
        sumValid (d1 ++ d2)) ∧
    (∀ (s : Lockin) (burst : List (ℕ × ℕ)) (lf : Bool) (t x y : ℝ),
      (interpretInput s burst lf).2 = some (t, x, y) →
      x = (((interpretInput s burst lf).1.data.filter fun p =>
              decide (p.1 ≠ (1 : ℝ) / 2 ∧ p.2 ≠ (1 : ℝ) / 2)).map Prod.fst).sum /
            (((interpretInput s burst lf).1.data.filter fun p =>
              decide (p.1 ≠ (1 : ℝ) / 2 ∧ p.2 ≠ (1 : ℝ) / 2)).length : ℝ) ∧
      y = (((interpretInput s burst lf).1.data.filter fun p =>
              decide (p.1 ≠ (1 : ℝ) / 2 ∧ p.2 ≠ (1 : ℝ) / 2)).map Prod.snd).sum /
            (((interpretInput s burst lf).1.data.filter fun p =>
              decide (p.1 ≠ (1 : ℝ) / 2 ∧ p.2 ≠ (1 : ℝ) / 2)).length : ℝ)) := by
  constructor
  · intro d1 d2 k
    induction k with
    | zero => simp
    | succ k ih =>
      rw [List.replicate_succ, List.cons_append, ← List.cons_append]
      rw [List.cons_append]
      have := sumValid_skip d1 (List.replicate k ((1 : ℝ) / 2, (1 : ℝ) / 2) ++ d2)
        ((1 : ℝ) / 2, (1 : ℝ) / 2) (Or.inl rfl)
      rw [this]
      exact ih
  · have key : ∀ (s : Lockin) (burst : List (ℕ × ℕ)) (lf : Bool) (t x y : ℝ),
        (interpretInput s burst lf).2 = some (t, x, y) →
        x = (sumValid (interpretInput s burst lf).1.data).2.1 /
            (sumValid (interpretInput s burst lf).1.data).1 ∧
        y = (sumValid (interpretInput s burst lf).1.data).2.2 /
            (sumValid (interpretInput s burst lf).1.data).1 := by
      intro s burst lf
      unfold interpretInput
      by_cases hb : burst.length = 0
      · rw [if_pos hb]
        intro t x y hemit
        simp at hemit
      · rw [if_neg hb]
        simp only []
        cases lf
        all_goals
          first
            | rw [if_neg (show ¬((false : Bool) = true) by simp)]
            | rw [if_pos rfl]
        all_goals
          split_ifs with h2
          · intro t x y hemit
            simp at hemit
          · intro t x y hemit
            simp only [Option.some.injEq, Prod.mk.injEq] at hemit
            obtain ⟨ht, hx, hy⟩ := hemit
            exact ⟨hx.symm, hy.symm⟩
    intro s burst lf t x y hemit
    obtain ⟨hx, hy⟩ := key s burst lf t x y hemit
    rw [hx, hy, sumValid_eq_filter]
    exact ⟨rfl, rfl⟩

/-- Witness for the amended C5: on the `noLockState` cycle the emitted
`x` and `y` equal the (degenerate, zero-count) filtered sum over count;
plus a closed instance of the insertion-invariance part. -/
theorem mean_excludes_sentinel_and_counts_valid_wit :
    ((interpretInput noLockState [(7, 5), (9, 5)] true).2 = some (1, 0, 0) ∧
     ((0 : ℝ) = (((interpretInput noLockState [(7, 5), (9, 5)] true).1.data.filter fun p =>
           decide (p.1 ≠ (1 : ℝ) / 2 ∧ p.2 ≠ (1 : ℝ) / 2)).map Prod.fst).sum /
         (((interpretInput noLockState [(7, 5), (9, 5)] true).1.data.filter fun p =>
           decide (p.1 ≠ (1 : ℝ) / 2 ∧ p.2 ≠ (1 : ℝ) / 2)).length : ℝ) ∧
      (0 : ℝ) = (((interpretInput noLockState [(7, 5), (9, 5)] true).1.data.filter fun p =>
           decide (p.1 ≠ (1 : ℝ) / 2 ∧ p.2 ≠ (1 : ℝ) / 2)).map Prod.snd).sum /
         (((interpretInput noLockState [(7, 5), (9, 5)] true).1.data.filter fun p =>
           decide (p.1 ≠ (1 : ℝ) / 2 ∧ p.2 ≠ (1 : ℝ) / 2)).length : ℝ))) ∧
    sumValid ([((1 : ℝ), (1 : ℝ))] ++
        (List.replicate 1 ((1 : ℝ) / 2, (1 : ℝ) / 2) ++ [((3 : ℝ), (4 : ℝ))])) =
      sumValid ([((1 : ℝ), (1 : ℝ))] ++ [((3 : ℝ), (4 : ℝ))]) :=
  ⟨⟨by rw [noLock_eval],
    mean_excludes_sentinel_and_counts_valid.2 noLockState [(7, 5), (9, 5)] true 1 0 0
      (by rw [noLock_eval])⟩,
   mean_excludes_sentinel_and_counts_valid.1 [((1 : ℝ), (1 : ℝ))] [((3 : ℝ), (4 : ℝ))] 1⟩

/-- C10: invalid demodulated samples are stored as the reserved pair
`(0.5, 0.5)` (`lockin2.cpp:194`); the averaging loop excludes *every*
stored entry whose first or second component equals `0.5`
(`lockin2.cpp:235`); and on the example input the genuinely valid
sample `(0.5, √3/2)` — demodulated from a non-sentinel chopper entry —
is excluded from the mean: the loop counts only `1` valid entry out of
the window's two provenance-valid samples. -/
theorem sentinel_validity_collision :
    (∀ (l : ℕ) (ls : List ℕ) (c : ℝ) (ps : List (ℝ × ℝ)),
      demodulate (l :: ls) ((2, c) :: ps) =
        ((1 : ℝ) / 2, (1 : ℝ) / 2) :: demodulate ls ps) ∧
    (∀ (d1 d2 : List (ℝ × ℝ)) (p : ℝ × ℝ), p.1 = (1 : ℝ) / 2 ∨ p.2 = (1 : ℝ) / 2 →
      sumValid (d1 ++ p :: d2) = sumValid (d1 ++ d2)) ∧
    ((parseChopperSignal [1, 0, 1, 0, 1] 0 (Real.pi / 6)).getD 3 (0, 0) =
        (1 / 2, Real.sqrt 3 / 2) ∧
     ((1 : ℝ) / 2) ≠ 2 ∧
     (demodulate [1, 1, 1, 1, 0]
        (parseChopperSignal [1, 0, 1, 0, 1] 0 (Real.pi / 6))).getD 3 (0, 0) =
        (1 / 2, Real.sqrt 3 / 2) ∧
     (sumValid (demodulate [1, 1, 1, 1, 0]
        (parseChopperSignal [1, 0, 1, 0, 1] 0 (Real.pi / 6)))).1 = 1) := by
  refine ⟨?_, sumValid_skip, ?_, by norm_num, ?_, ?_⟩
  · intro l ls c ps
    exact demodulate_cons_invalid l ls (2, c) ps rfl
  · rw [exParse_eval]
    simp [List.getD]
  · rw [exData_eval]
    simp [List.getD]
  · rw [exData_eval, exSum_eval]

/-- Witness for C10's exclusion part at a concrete window: an entry
with first component `0.5` drops out of the averaging loop. -/
theorem sentinel_validity_collision_wit :
    (((1 : ℝ) / 2, (3 : ℝ)).1 = (1 : ℝ) / 2 ∨ ((1 : ℝ) / 2, (3 : ℝ)).2 = (1 : ℝ) / 2) ∧
    sumValid ([((1 : ℝ), (1 : ℝ))] ++ ((1 : ℝ) / 2, (3 : ℝ)) :: [((5 : ℝ), (6 : ℝ))]) =
      sumValid ([((1 : ℝ), (1 : ℝ))] ++ [((5 : ℝ), (6 : ℝ))]) :=
  ⟨Or.inl rfl,
   sentinel_validity_collision.2.1 [((1 : ℝ), (1 : ℝ))] [((5 : ℝ), (6 : ℝ))]
     ((1 : ℝ) / 2, (3 : ℝ)) (Or.inl rfl)⟩

end Lockin2
